import Mathlib

set_option linter.unusedSectionVars false

/-!
A shallow embedding of FastaUploader (src/fasta_uploader.py) together with
proofs about its batching, submission and reconciliation behaviour.

Record identifiers are modelled by an arbitrary type with decidable
equality.  A persisted batch file pair `output.<index>.<state>.fasta` /
`output.<index>.<state>.tsv` is modelled by a `Batch`: its integer index,
its state token (the literal string "queued" or a submission id) and the
list of record identifiers its files contain (after every write the fasta
half and the tsv half carry the same identifier set, so one identifier
list stands for the pair).  The collection of batch files on disk is a
list of such batches.
-/

/-- One persisted batch file pair: index, state token, record identifiers. -/
structure Batch (α : Type) where
  idx : Nat
  state : String
  ids : List α
  deriving DecidableEq, Repr

/-- The on-disk collection of batch file pairs under the output prefix. -/
abbrev FS (α : Type) := List (Batch α)

variable {α : Type} [DecidableEq α]

/-- The set of identifiers present across all batch file pairs. -/
def idsOf (fs : FS α) : Finset α :=
  fs.foldr (fun b acc => b.ids.toFinset ∪ acc) ∅

/-- Two batches hold disjoint identifier sets. -/
def BatchDisj (a b : Batch α) : Prop := ∀ x ∈ a.ids, x ∉ b.ids

/-- No identifier appears in two distinct batch file pairs. -/
def DisjointFS (fs : FS α) : Prop := fs.Pairwise BatchDisj

/-- The (index, state) filename keys of all batch pairs are distinct
(the filesystem holds at most one file per name). -/
def KeysNodup (fs : FS α) : Prop := (fs.map (fun b => (b.idx, b.state))).Nodup

instance (a b : Batch α) : Decidable (BatchDisj a b) := by
  unfold BatchDisj; infer_instance

instance (fs : FS α) : Decidable (DisjointFS fs) := by
  unfold DisjointFS; infer_instance

/-!
## Batch partitioning (`batch_fasta`, fasta_uploader.py lines 163-189)

The source computes `splits = len(fasta_data)/int(options.batch)` (true
division), clamps `splits` below by 1, and hands the value to
`numpy.array_split`.  `array_split` truncates its scalar section argument
with `int(...)`, so the effective section count is
`max(1, len(records) // batch)`.  `array_split` distributes `n` items over
`k` sections as `n % k` sections of size `n / k + 1` followed by
`k - n % k` sections of size `n / k`.
-/

/-- Section sizes produced by `numpy.array_split` for `n` items in `k`
sections. -/
def array_split_sizes (n k : Nat) : List Nat :=
  List.replicate (n % k) (n / k + 1) ++ List.replicate (k - n % k) (n / k)

/-- Cut a list into consecutive chunks of the given sizes. -/
def chunksOf (l : List α) : List Nat → List (List α)
  | [] => []
  | s :: rest => l.take s :: chunksOf (l.drop s) rest

/-- The section count used by `batch_fasta`: `splits = len/batch` clamped
below by 1, then truncated by `array_split` (`int(2.5) = 2`). -/
def nSections (n batch : Nat) : Nat := if n < batch then 1 else n / batch

/-- `for count, sequences in enumerate(...)`: number chunks from `i` up and
tag every chunk file pair with the state token "queued". -/
def mkBatches (i : Nat) : List (List α) → FS α
  | [] => []
  | c :: cs => ⟨i, "queued", c⟩ :: mkBatches (i + 1) cs

/-- `batch_fasta`: split the sorted record list into `numpy.array_split`
sections and persist each as a `queued` batch file pair. -/
def batch_fasta (records : List α) (batch : Nat) : FS α :=
  mkBatches 0 (chunksOf records (array_split_sizes records.length (nSections records.length batch)))

/-- The skip rule of the main program (fasta_uploader.py lines 508-513,
run without `--reset`): if a batch file with index 0 in any state exists
under the output prefix (`glob(output_file + '.0.*.fasta')`), batch file
generation is skipped, otherwise `batch_fasta` adds the new batch files. -/
def partitionStep (records : List α) (batch : Nat) (fs : FS α) : FS α :=
  if fs.any (fun b => b.idx == 0) then fs else fs ++ batch_fasta records batch

theorem array_split_sizes_sum (n k : Nat) (hk : 0 < k) :
    (array_split_sizes n k).sum = n := by
  have hmod : n % k ≤ k := le_of_lt (Nat.mod_lt _ hk)
  have hdm : k * (n / k) + n % k = n := Nat.div_add_mod n k
  have hle : n % k * (n / k) ≤ k * (n / k) := Nat.mul_le_mul_right _ hmod
  simp only [array_split_sizes, List.sum_append, List.sum_replicate, smul_eq_mul]
  rw [Nat.mul_add, Nat.mul_one, Nat.sub_mul]
  omega

theorem array_split_sizes_length (n k : Nat) (hk : 0 < k) :
    (array_split_sizes n k).length = k := by
  have hmod : n % k < k := Nat.mod_lt _ hk
  simp only [array_split_sizes, List.length_append, List.length_replicate]
  omega

theorem nSections_pos (n batch : Nat) (hb : 0 < batch) : 0 < nSections n batch := by
  unfold nSections
  split
  · exact Nat.one_pos
  · exact Nat.one_le_div_iff hb |>.mpr (le_of_not_lt (by assumption))

theorem chunksOf_join (l : List α) (sizes : List Nat) :
    (chunksOf l sizes).flatten = l.take sizes.sum := by
  induction sizes generalizing l with
  | nil => simp [chunksOf]
  | cons s rest ih =>
      simp only [chunksOf, List.flatten_cons, List.sum_cons, List.take_add]
      rw [ih]

theorem chunksOf_mem_subset (l : List α) (sizes : List Nat) :
    ∀ c ∈ chunksOf l sizes, ∀ x ∈ c, x ∈ l := by
  induction sizes generalizing l with
  | nil => simp [chunksOf]
  | cons s rest ih =>
      intro c hc x hx
      simp only [chunksOf, List.mem_cons] at hc
      rcases hc with rfl | hc
      · exact List.take_subset _ _ hx
      · exact List.drop_subset _ _ (ih (l.drop s) c hc x hx)

theorem chunksOf_pairwise (l : List α) (sizes : List Nat) (h : l.Nodup) :
    (chunksOf l sizes).Pairwise (fun c d => ∀ x ∈ c, x ∉ d) := by
  induction sizes generalizing l with
  | nil => simp [chunksOf]
  | cons s rest ih =>
      simp only [chunksOf, List.pairwise_cons]
      constructor
      · intro d hd x hxtake hxd
        have hxdrop : x ∈ l.drop s := chunksOf_mem_subset _ _ d hd x hxd
        have hsplit : l.take s ++ l.drop s = l := List.take_append_drop s l
        have : (l.take s ++ l.drop s).Nodup := by rw [hsplit]; exact h
        exact (List.nodup_append.mp this).2.2 hxtake hxdrop
      · exact ih _ (h.sublist (List.drop_sublist s l))

theorem chunksOf_lengths (l : List α) (sizes : List Nat)
    (h : sizes.sum ≤ l.length) :
    (chunksOf l sizes).map List.length = sizes := by
  induction sizes generalizing l with
  | nil => simp [chunksOf]
  | cons s rest ih =>
      simp only [List.sum_cons] at h
      simp only [chunksOf, List.map_cons]
      have h1 : (l.take s).length = s := by rw [List.length_take]; omega
      rw [h1, ih _ (by rw [List.length_drop]; omega)]

theorem mkBatches_mem (i : Nat) (cs : List (List α)) :
    ∀ b ∈ mkBatches i cs, b.state = "queued" ∧ b.ids ∈ cs := by
  induction cs generalizing i with
  | nil => simp [mkBatches]
  | cons c rest ih =>
      intro b hb
      simp only [mkBatches, List.mem_cons] at hb
      rcases hb with rfl | hb
      · exact ⟨rfl, List.mem_cons_self _ _⟩
      · exact ⟨(ih _ b hb).1, List.mem_cons_of_mem _ (ih _ b hb).2⟩

theorem mkBatches_idsOf (i : Nat) (cs : List (List α)) :
    idsOf (mkBatches i cs) = cs.flatten.toFinset := by
  induction cs generalizing i with
  | nil => simp [mkBatches, idsOf]
  | cons c rest ih =>
      simp only [mkBatches, idsOf, List.foldr]
      rw [← idsOf, ih, List.flatten_cons, List.toFinset_append]

theorem mkBatches_pairwise (i : Nat) (cs : List (List α))
    (h : cs.Pairwise (fun c d => ∀ x ∈ c, x ∉ d)) :
    DisjointFS (mkBatches i cs) := by
  induction cs generalizing i with
  | nil => exact List.Pairwise.nil
  | cons c rest ih =>
      rcases List.pairwise_cons.mp h with ⟨hc, hrest⟩
      refine List.pairwise_cons.mpr ⟨?_, ih _ hrest⟩
      intro b hb x hx hxb
      exact hc b.ids (mkBatches_mem _ _ b hb).2 x hx hxb

theorem idsOf_batch_fasta (records : List α) (batch : Nat) (hb : 0 < batch) :
    idsOf (batch_fasta records batch) = records.toFinset := by
  unfold batch_fasta
  rw [mkBatches_idsOf, chunksOf_join,
    array_split_sizes_sum _ _ (nSections_pos _ _ hb), List.take_length]

theorem disjoint_batch_fasta (records : List α) (batch : Nat)
    (h : records.Nodup) : DisjointFS (batch_fasta records batch) :=
  mkBatches_pairwise _ _ (chunksOf_pairwise _ _ h)

theorem batch_fasta_has_index_zero (records : List α) (batch : Nat)
    (hb : 0 < batch) : ∃ b ∈ batch_fasta records batch, b.idx = 0 := by
  unfold batch_fasta
  have hlen : (array_split_sizes records.length (nSections records.length batch)).length
      = nSections records.length batch :=
    array_split_sizes_length _ _ (nSections_pos _ _ hb)
  rcases hs : array_split_sizes records.length (nSections records.length batch) with _ | ⟨s, rest⟩
  · rw [hs] at hlen
    have := nSections_pos records.length batch hb
    simp at hlen
    omega
  · exact ⟨⟨0, "queued", records.take s⟩, by simp [hs, chunksOf, mkBatches], rfl⟩

theorem mkBatches_lengths (i : Nat) (cs : List (List α)) :
    (mkBatches i cs).map (fun b => b.ids.length) = cs.map List.length := by
  induction cs generalizing i with
  | nil => rfl
  | cons c rest ih => simp only [mkBatches, List.map_cons, ih]

theorem batch_fasta_lengths (records : List α) (batch : Nat) (hb : 0 < batch) :
    (batch_fasta records batch).map (fun b => b.ids.length)
      = array_split_sizes records.length (nSections records.length batch) := by
  unfold batch_fasta
  rw [mkBatches_lengths, chunksOf_lengths]
  rw [array_split_sizes_sum _ _ (nSections_pos _ _ hb)]

/-- Claim C2, settled against the code at the claimed inputs: `batch_fasta`
on 2500 records with batch size 1000 produces two batches of 1250 records
each -- not three batches of sizes 1000, 1000, 500, and not batches of at
most 1000 records -- because `splits = len(fasta_data)/int(options.batch)`
is true division and `numpy.array_split` truncates `2500/1000 = 2.5` to 2
sections, contradicting the claim and the source comments (lines 154-156,
178) that batches hold at most `options.batch` records.  On 500 records
with batch size 1000 it produces one batch of 500 as claimed. -/
theorem batch_fasta_oversized_batches :
    (batch_fasta (List.range 2500) 1000).map (fun b => b.ids.length) = [1250, 1250]
    ∧ (batch_fasta (List.range 500) 1000).map (fun b => b.ids.length) = [500]
    ∧ (batch_fasta (List.range 2500) 1000).map (fun b => b.ids.length) ≠ [1000, 1000, 500]
    ∧ ∃ b ∈ batch_fasta (List.range 2500) 1000, 1000 < b.ids.length := by
  have h1 : (batch_fasta (List.range 2500) 1000).map (fun b => b.ids.length)
      = [1250, 1250] := by
    rw [batch_fasta_lengths _ _ (by norm_num)]
    simp only [List.length_range]
    decide
  have h2 : (batch_fasta (List.range 500) 1000).map (fun b => b.ids.length)
      = [500] := by
    rw [batch_fasta_lengths _ _ (by norm_num)]
    simp only [List.length_range]
    decide
  refine ⟨h1, h2, by rw [h1]; decide, ?_⟩
  rcases hL : batch_fasta (List.range 2500) 1000 with _ | ⟨b, t⟩
  · rw [hL] at h1; simp at h1
  · rw [hL] at h1
    simp only [List.map_cons, List.cons.injEq] at h1
    exact ⟨b, List.mem_cons_self _ _, by omega⟩

/-- Claim C3: without the reset flag, if any index-0 batch file (in any
state) exists under the output prefix, the partitioning step is skipped
entirely and the batch files are unchanged; consequently running the
partitioning step a second time (with any inputs) adds no batch files and
changes none. -/
theorem partitionStep_idempotent (records records2 : List α)
    (batch batch2 : Nat) (hb : 0 < batch) (fs : FS α) :
    ((∃ b ∈ fs, b.idx = 0) → partitionStep records batch fs = fs)
    ∧ partitionStep records2 batch2 (partitionStep records batch fs)
      = partitionStep records batch fs := by
  have hskip : ∀ (r : List α) (k : Nat) (g : FS α), (∃ b ∈ g, b.idx = 0) →
      partitionStep r k g = g := by
    intro r k g hg
    have : g.any (fun b => b.idx == 0) = true := by
      rcases hg with ⟨b, hb1, hb2⟩
      exact List.any_eq_true.mpr ⟨b, hb1, by simp [hb2]⟩
    simp [partitionStep, this]
  refine ⟨hskip records batch fs, ?_⟩
  by_cases hc : fs.any (fun b => b.idx == 0) = true
  · have h1 : partitionStep records batch fs = fs := by simp [partitionStep, hc]
    rw [h1]
    simp [partitionStep, hc]
  · have h1 : partitionStep records batch fs = fs ++ batch_fasta records batch := by
      simp [partitionStep] at hc ⊢
      intro b hbmem hbidx
      exact absurd hbidx (hc b hbmem)
    rw [h1]
    apply hskip
    rcases batch_fasta_has_index_zero records batch hb with ⟨b, hb1, hb2⟩
    exact ⟨b, List.mem_append_right _ hb1, hb2⟩

/-- Witness for claim C3 at concrete inputs. -/
theorem partitionStep_idempotent_witness :
    0 < 2
    ∧ (((∃ b ∈ ([] : FS Nat), b.idx = 0) → partitionStep [0, 1, 2] 2 [] = [])
    ∧ partitionStep [0, 1] 3 (partitionStep [0, 1, 2] 2 ([] : FS Nat))
      = partitionStep [0, 1, 2] 2 []) :=
  ⟨by decide, partitionStep_idempotent [0, 1, 2] [0, 1] 2 3 (by decide) []⟩

/-!
## Status reconciliation (`api_batch_status`, fasta_uploader.py lines 373-434)

`api_batch_status` globs every batch file `output.*.*.fasta`, sorts the
listing by integer batch index, and for each non-`queued` pair polls the
status endpoint (`api_virusseq_status`).  The poll fills `error_keys` with
the submitter sample ids reported in state ERROR.  If `error_keys` is
non-empty, the records of the pair that are in `error_keys` are appended
to the index's `queued` pair (created if absent) and the pair is rewritten
in place with only the remaining records.
-/

/-- One record of the status endpoint response body (`response['data']`). -/
structure StatusRecord (α : Type) where
  submitterSampleId : α
  status : String
  error : List Char

/-- `error_keys` as collected by `api_virusseq_status` (lines 455-465): the
submitter sample ids of the response records whose status is ERROR. -/
def errorKeysOf (resp : List (StatusRecord α)) : List α :=
  (resp.filter (fun r => r.status == "ERROR")).map (fun r => r.submitterSampleId)

/-- Look a batch file pair up by its `(index, state)` filename key. -/
def findBatch (key : Nat × String) (fs : FS α) : Option (Batch α) :=
  fs.find? (fun b => b.idx == key.1 && b.state == key.2)

/-- Overwrite the identifier content of the batch pair with the given
filename key (lines 429-434: the submitted pair is rewritten in place with
only the records that are not in `error_keys`). -/
def updateIds (key : Nat × String) (newIds : List α) : FS α → FS α
  | [] => []
  | b :: rest =>
      if b.idx == key.1 && b.state == key.2 then ⟨b.idx, b.state, newIds⟩ :: rest
      else b :: updateIds key newIds rest

/-- Append records to the `queued` pair of index `i`, creating the pair if
absent (lines 417-427: append mode when the file already exists, write
mode otherwise). -/
def setQueued (i : Nat) (moved : List α) : FS α → FS α
  | [] => [⟨i, "queued", moved⟩]
  | b :: rest =>
      if b.idx == i && b.state == "queued" then ⟨b.idx, b.state, b.ids ++ moved⟩ :: rest
      else b :: setQueued i moved rest

/-- One iteration of the `api_batch_status` loop for the batch file with
filename key `key`: a `queued` batch is not polled and nothing happens;
for a submitted batch, if the poll reports at least one ERROR record, the
pair's records that are in `error_keys` are appended to the index's
`queued` pair and the pair is rewritten with the remaining records. -/
def reconcileOne (respond : String → List (StatusRecord α)) (fs : FS α)
    (key : Nat × String) : FS α :=
  if key.2 == "queued" then fs
  else
    (findBatch key fs).elim fs (fun b =>
      if (errorKeysOf (respond key.2)).isEmpty then fs
      else
        setQueued key.1
          (b.ids.filter (fun x => decide (x ∈ errorKeysOf (respond key.2))))
          (updateIds key
            (b.ids.filter (fun x => decide (x ∉ errorKeysOf (respond key.2)))) fs))

/-- The reconciler's batch ordering (line 377):
`sorted(batches, key=lambda n: int(n.split('.',3)[2]))` sorts the globbed
filenames by integer batch index; Python sorted is stable, modelled by a
stable insertion sort on the index. -/
def sortBatchKeys (listing : List (Nat × String)) : List (Nat × String) :=
  List.insertionSort (fun a b => a.1 ≤ b.1) listing

/-- `api_batch_status`: iterate `reconcileOne` over the globbed batch file
keys in ascending batch-index order, honouring the `-n` batch-number
filter (line 387). -/
def api_batch_status (respond : String → List (StatusRecord α))
    (batchNumber : Option Nat) (fs : FS α) (listing : List (Nat × String)) : FS α :=
  (sortBatchKeys listing).foldl
    (fun s k =>
      if batchNumber = none ∨ batchNumber = some k.1 then reconcileOne respond s k else s)
    fs

/-- Any number of reconciliation cycles, each with its own poll responses,
batch-number filter and glob listing, starting from a given file state. -/
def runCycles (fs : FS α) :
    List ((String → List (StatusRecord α)) × Option Nat × List (Nat × String)) → FS α
  | [] => fs
  | c :: cs => runCycles (api_batch_status c.1 c.2.1 fs c.2.2) cs

theorem idsOf_nil : idsOf ([] : FS α) = ∅ := rfl

theorem idsOf_cons (b : Batch α) (fs : FS α) :
    idsOf (b :: fs) = b.ids.toFinset ∪ idsOf fs := rfl

theorem idsOf_append (l₁ l₂ : FS α) :
    idsOf (l₁ ++ l₂) = idsOf l₁ ∪ idsOf l₂ := by
  induction l₁ with
  | nil => simp [idsOf_nil, idsOf]
  | cons b rest ih =>
      simp only [List.cons_append, idsOf_cons, ih, Finset.union_assoc]

theorem idsOf_setQueued (i : Nat) (moved : List α) (fs : FS α) :
    idsOf (setQueued i moved fs) = moved.toFinset ∪ idsOf fs := by
  induction fs with
  | nil => simp [setQueued, idsOf_cons, idsOf_nil]
  | cons b rest ih =>
      by_cases hcond : (b.idx == i && b.state == "queued") = true
      · simp only [setQueued, if_pos hcond, idsOf_cons, List.toFinset_append]
        ext x
        simp only [Finset.mem_union]
        tauto
      · simp only [setQueued, if_neg hcond, idsOf_cons, ih]
        ext x
        simp only [Finset.mem_union]
        tauto

theorem setQueued_mem (i : Nat) (moved : List α) (fs : FS α) :
    ∀ y ∈ setQueued i moved fs,
      y ∈ fs
      ∨ (∃ q ∈ fs, q.state = "queued" ∧ y = ⟨q.idx, q.state, q.ids ++ moved⟩)
      ∨ y = ⟨i, "queued", moved⟩ := by
  induction fs with
  | nil =>
      intro y hy
      simp only [setQueued, List.mem_singleton] at hy
      exact Or.inr (Or.inr hy)
  | cons b rest ih =>
      intro y hy
      by_cases hcond : (b.idx == i && b.state == "queued") = true
      · rw [setQueued, if_pos hcond] at hy
        rcases List.mem_cons.mp hy with rfl | hy2
        · refine Or.inr (Or.inl ⟨b, List.mem_cons_self _ _, ?_, rfl⟩)
          have hcond2 := hcond
          simp only [Bool.and_eq_true, beq_iff_eq] at hcond2
          exact hcond2.2
        · exact Or.inl (List.mem_cons_of_mem _ hy2)
      · rw [setQueued, if_neg hcond] at hy
        rcases List.mem_cons.mp hy with rfl | hy2
        · exact Or.inl (List.mem_cons_self _ _)
        · rcases ih y hy2 with h | ⟨q, hq, hqs, hqe⟩ | h
          · exact Or.inl (List.mem_cons_of_mem _ h)
          · exact Or.inr (Or.inl ⟨q, List.mem_cons_of_mem _ hq, hqs, hqe⟩)
          · exact Or.inr (Or.inr h)

theorem setQueued_mem_of_not_queued (i : Nat) (moved : List α) (fs : FS α) :
    ∀ y ∈ setQueued i moved fs, y.state ≠ "queued" → y ∈ fs := by
  intro y hy hs
  rcases setQueued_mem i moved fs y hy with h | ⟨q, _, hqs, rfl⟩ | rfl
  · exact h
  · exact absurd hqs hs
  · exact absurd rfl hs

theorem setQueued_mem_moved (i : Nat) (moved : List α) (fs : FS α) (x : α)
    (hx : x ∈ moved) :
    ∃ q ∈ setQueued i moved fs, q.idx = i ∧ q.state = "queued" ∧ x ∈ q.ids := by
  induction fs with
  | nil => exact ⟨⟨i, "queued", moved⟩, List.mem_singleton.mpr rfl, rfl, rfl, hx⟩
  | cons b rest ih =>
      by_cases hcond : (b.idx == i && b.state == "queued") = true
      · have hcond2 := hcond
        simp only [Bool.and_eq_true, beq_iff_eq] at hcond2
        refine ⟨⟨b.idx, b.state, b.ids ++ moved⟩, ?_, hcond2.1, hcond2.2,
          List.mem_append_right _ hx⟩
        rw [setQueued, if_pos hcond]
        exact List.mem_cons_self _ _
      · rcases ih with ⟨q, hq, h1, h2, h3⟩
        refine ⟨q, ?_, h1, h2, h3⟩
        rw [setQueued, if_neg hcond]
        exact List.mem_cons_of_mem _ hq

theorem setQueued_pairwise (i : Nat) (moved : List α) (fs : FS α)
    (hfs : DisjointFS fs) (hmoved : ∀ b ∈ fs, ∀ x ∈ moved, x ∉ b.ids) :
    DisjointFS (setQueued i moved fs) := by
  induction fs with
  | nil => simp [setQueued, DisjointFS]
  | cons b rest ih =>
      rcases List.pairwise_cons.mp hfs with ⟨hb, hrest⟩
      by_cases hcond : (b.idx == i && b.state == "queued") = true
      · unfold DisjointFS
        rw [setQueued, if_pos hcond]
        refine List.pairwise_cons.mpr ⟨?_, hrest⟩
        intro y hy x hx
        rcases List.mem_append.mp hx with hxb | hxm
        · exact hb y hy x hxb
        · exact hmoved y (List.mem_cons_of_mem _ hy) x hxm
      · unfold DisjointFS
        rw [setQueued, if_neg hcond]
        refine List.pairwise_cons.mpr
          ⟨?_, ih hrest (fun c hc => hmoved c (List.mem_cons_of_mem _ hc))⟩
        intro y hy x hxb hxy
        rcases setQueued_mem i moved rest y hy with h | ⟨q, hq, _, rfl⟩ | rfl
        · exact hb y h x hxb hxy
        · rcases List.mem_append.mp hxy with h1 | h2
          · exact hb q hq x hxb h1
          · exact hmoved b (List.mem_cons_self _ _) x h2 hxb
        · exact hmoved b (List.mem_cons_self _ _) x hxy hxb

theorem updateIds_decomp (key : Nat × String) (s : List α) (fs : FS α) (b : Batch α)
    (hfind : findBatch key fs = some b) :
    ∃ l₁ l₂, fs = l₁ ++ b :: l₂
      ∧ updateIds key s fs = l₁ ++ ⟨b.idx, b.state, s⟩ :: l₂
      ∧ (∀ x ∈ l₁, (x.idx == key.1 && x.state == key.2) = false)
      ∧ b.idx = key.1 ∧ b.state = key.2 := by
  induction fs with
  | nil => simp [findBatch] at hfind
  | cons c rest ih =>
      by_cases hc : (c.idx == key.1 && c.state == key.2) = true
      · have hcb : c = b := by
          unfold findBatch at hfind
          simp only [List.find?, hc] at hfind
          exact Option.some.inj hfind
        subst hcb
        have hc2 := hc
        simp only [Bool.and_eq_true, beq_iff_eq] at hc2
        exact ⟨[], rest, by simp, by rw [updateIds, if_pos hc]; rfl, by simp,
          hc2.1, hc2.2⟩
      · have hfind2 : findBatch key rest = some b := by
          unfold findBatch at hfind ⊢
          simp only [List.find?, hc] at hfind
          exact hfind
        rcases ih hfind2 with ⟨l₁, l₂, e1, e2, e3, e4, e5⟩
        refine ⟨c :: l₁, l₂, by rw [e1]; rfl, ?_, ?_, e4, e5⟩
        · rw [updateIds, if_neg hc, e2]
          rfl
        · intro x hx
          rcases List.mem_cons.mp hx with rfl | hx2
          · simpa using hc
          · exact e3 x hx2

theorem updateIds_key_ids (key : Nat × String) (s : List α) (fs : FS α) (b : Batch α)
    (hk : KeysNodup fs) (hfind : findBatch key fs = some b) :
    ∀ y ∈ updateIds key s fs, y.idx = key.1 → y.state = key.2 → y.ids = s := by
  rcases updateIds_decomp key s fs b hfind with ⟨l₁, l₂, e1, e2, e3, e4, e5⟩
  intro y hy hyi hys
  rw [e2] at hy
  rcases List.mem_append.mp hy with hy1 | hy2
  · have := e3 y hy1
    rw [hyi, hys] at this
    simp at this
  · rcases List.mem_cons.mp hy2 with rfl | hy3
    · rfl
    · exfalso
      have hkeys : ((l₁ ++ b :: l₂).map (fun b => (b.idx, b.state))).Nodup := by
        rw [← e1]; exact hk
      rw [List.map_append, List.map_cons] at hkeys
      have h2 := (List.nodup_append.mp hkeys).2.1
      have hnotin := (List.nodup_cons.mp h2).1
      refine hnotin ?_
      have : (b.idx, b.state) = (y.idx, y.state) := by rw [e4, e5, hyi, hys]
      rw [this]
      exact List.mem_map_of_mem _ hy3

theorem reconcileOne_eq_active (respond : String → List (StatusRecord α))
    (fs : FS α) (key : Nat × String) (b : Batch α)
    (hq : key.2 ≠ "queued") (hfind : findBatch key fs = some b)
    (hek : errorKeysOf (respond key.2) ≠ []) :
    reconcileOne respond fs key
      = setQueued key.1
          (b.ids.filter (fun x => decide (x ∈ errorKeysOf (respond key.2))))
          (updateIds key
            (b.ids.filter (fun x => decide (x ∉ errorKeysOf (respond key.2)))) fs) := by
  unfold reconcileOne
  rw [if_neg (by simpa using hq), hfind, Option.elim_some,
    if_neg (by simpa [List.isEmpty_iff] using hek)]

theorem reconcileOne_eq_self_of_no_errors
    (respond : String → List (StatusRecord α)) (fs : FS α) (key : Nat × String)
    (hek : errorKeysOf (respond key.2) = []) :
    reconcileOne respond fs key = fs := by
  unfold reconcileOne
  split
  · rfl
  · cases hf : findBatch key fs with
    | none => rfl
    | some b => rw [Option.elim_some, if_pos (by simp [hek])]

theorem pairwise_replace (l₁ l₂ : List (Batch α)) (b : Batch α) (ids2 : List α)
    (hsub : ∀ x ∈ ids2, x ∈ b.ids)
    (h : DisjointFS (l₁ ++ b :: l₂)) (i0 : Nat) (s0 : String) :
    DisjointFS (l₁ ++ ⟨i0, s0, ids2⟩ :: l₂) := by
  unfold DisjointFS at h ⊢
  rw [List.pairwise_append] at h ⊢
  rcases h with ⟨h1, h2, h3⟩
  rcases List.pairwise_cons.mp h2 with ⟨hb, h2x⟩
  refine ⟨h1, List.pairwise_cons.mpr ⟨?_, h2x⟩, ?_⟩
  · intro y hy x hx hx2
    exact hb y hy x (hsub x hx) hx2
  · intro a ha y hy
    rcases List.mem_cons.mp hy with rfl | hy2
    · intro x hx hx2
      exact h3 a ha b (List.mem_cons_self _ _) x hx (hsub x hx2)
    · exact h3 a ha y (List.mem_cons_of_mem _ hy2)

theorem idsOf_reconcileOne (respond : String → List (StatusRecord α))
    (fs : FS α) (key : Nat × String) :
    idsOf (reconcileOne respond fs key) = idsOf fs := by
  unfold reconcileOne
  split
  · rfl
  · cases hf : findBatch key fs with
    | none => rfl
    | some b =>
        rw [Option.elim_some]
        split
        · rfl
        · rcases updateIds_decomp key
            (b.ids.filter (fun x => decide (x ∉ errorKeysOf (respond key.2)))) fs b hf
            with ⟨l₁, l₂, e1, e2, _, _, _⟩
          rw [idsOf_setQueued, e2, idsOf_append, idsOf_cons]
          conv_rhs => rw [e1]
          rw [idsOf_append, idsOf_cons]
          ext x
          simp only [Finset.mem_union, List.mem_toFinset, List.mem_filter,
            decide_eq_true_eq]
          by_cases hxe : x ∈ errorKeysOf (respond key.2) <;> tauto

theorem disjointFS_reconcileOne (respond : String → List (StatusRecord α))
    (fs : FS α) (key : Nat × String) (hfs : DisjointFS fs) :
    DisjointFS (reconcileOne respond fs key) := by
  unfold reconcileOne
  split
  · exact hfs
  · cases hf : findBatch key fs with
    | none => exact hfs
    | some b =>
        rw [Option.elim_some]
        split
        · exact hfs
        · rcases updateIds_decomp key
            (b.ids.filter (fun x => decide (x ∉ errorKeysOf (respond key.2)))) fs b hf
            with ⟨l₁, l₂, e1, e2, _, _, _⟩
          have hfs1 : DisjointFS (l₁ ++ b :: l₂) := by rw [← e1]; exact hfs
          have hupd : DisjointFS
              (updateIds key
                (b.ids.filter (fun x => decide (x ∉ errorKeysOf (respond key.2)))) fs) := by
            rw [e2]
            exact pairwise_replace l₁ l₂ b _
              (fun x hx => (List.mem_filter.mp hx).1) hfs1 b.idx b.state
          apply setQueued_pairwise _ _ _ hupd
          intro y hy x hxm hxy
          have hxb : x ∈ b.ids := (List.mem_filter.mp hxm).1
          have hxe : x ∈ errorKeysOf (respond key.2) := by
            have := (List.mem_filter.mp hxm).2
            simpa using this
          rw [e2] at hy
          unfold DisjointFS at hfs1
          rw [List.pairwise_append] at hfs1
          rcases hfs1 with ⟨h1, h2, h3⟩
          rcases List.mem_append.mp hy with hy1 | hy2
          · exact h3 y hy1 b (List.mem_cons_self _ _) x hxy hxb
          · rcases List.mem_cons.mp hy2 with rfl | hy3
            · have := (List.mem_filter.mp hxy).2
              simp at this
              exact this hxe
            · exact (List.pairwise_cons.mp h2).1 y hy3 x hxb hxy

theorem reconcileOne_moves (respond : String → List (StatusRecord α))
    (fs : FS α) (i : Nat) (sid : String) (b : Batch α) (r : α)
    (hk : KeysNodup fs) (hfind : findBatch (i, sid) fs = some b)
    (hsid : sid ≠ "queued") (hr : r ∈ b.ids)
    (hrek : r ∈ errorKeysOf (respond sid)) :
    (∃ q ∈ reconcileOne respond fs (i, sid),
        q.idx = i ∧ q.state = "queued" ∧ r ∈ q.ids)
    ∧ ∀ y ∈ reconcileOne respond fs (i, sid),
        y.idx = i → y.state = sid → r ∉ y.ids := by
  have hek : errorKeysOf (respond sid) ≠ [] := by
    intro h
    rw [h] at hrek
    exact List.not_mem_nil _ hrek
  rw [reconcileOne_eq_active respond fs (i, sid) b hsid hfind hek]
  have hrmoved : r ∈ b.ids.filter (fun x => decide (x ∈ errorKeysOf (respond sid))) :=
    List.mem_filter.mpr ⟨hr, by simpa using hrek⟩
  constructor
  · exact setQueued_mem_moved _ _ _ r hrmoved
  · intro y hy hyi hys
    have hy2 := setQueued_mem_of_not_queued _ _ _ y hy (by rw [hys]; exact hsid)
    have hids := updateIds_key_ids (i, sid) _ fs b hk hfind y hy2 hyi hys
    rw [hids]
    intro hrc
    have := (List.mem_filter.mp hrc).2
    simp at this
    exact this hrek

theorem idsOf_api_batch_status (respond : String → List (StatusRecord α))
    (batchNumber : Option Nat) (fs : FS α) (listing : List (Nat × String)) :
    idsOf (api_batch_status respond batchNumber fs listing) = idsOf fs := by
  unfold api_batch_status
  generalize sortBatchKeys listing = keys
  induction keys generalizing fs with
  | nil => rfl
  | cons k ks ih =>
      simp only [List.foldl_cons]
      rw [ih]
      split
      · exact idsOf_reconcileOne respond fs k
      · rfl

theorem disjointFS_api_batch_status (respond : String → List (StatusRecord α))
    (batchNumber : Option Nat) (fs : FS α) (listing : List (Nat × String))
    (hfs : DisjointFS fs) :
    DisjointFS (api_batch_status respond batchNumber fs listing) := by
  unfold api_batch_status
  generalize sortBatchKeys listing = keys
  induction keys generalizing fs with
  | nil => exact hfs
  | cons k ks ih =>
      simp only [List.foldl_cons]
      apply ih
      split
      · exact disjointFS_reconcileOne respond fs k hfs
      · exact hfs

theorem idsOf_runCycles (fs : FS α)
    (cycles : List ((String → List (StatusRecord α)) × Option Nat × List (Nat × String))) :
    idsOf (runCycles fs cycles) = idsOf fs := by
  induction cycles generalizing fs with
  | nil => rfl
  | cons c cs ih => rw [runCycles, ih, idsOf_api_batch_status]

theorem disjointFS_runCycles (fs : FS α)
    (cycles : List ((String → List (StatusRecord α)) × Option Nat × List (Nat × String)))
    (hfs : DisjointFS fs) :
    DisjointFS (runCycles fs cycles) := by
  induction cycles generalizing fs with
  | nil => exact hfs
  | cons c cs ih =>
      rw [runCycles]
      exact ih _ (disjointFS_api_batch_status _ _ _ _ hfs)

/-- Claim C1: after partitioning, and still after every number of
reconciliation cycles, the union of the identifier sets of all batch file
pairs (across every state tag) equals the identifier set of the original
input, and the identifier sets of distinct pairs are pairwise disjoint.
In particular, when reconciliation moves a record reported ERROR into a
queued pair, it also removes that record from the original submitted
pair. -/
theorem batch_pairs_invariant (records : List α) (batch : Nat)
    (hnd : records.Nodup) (hb : 0 < batch) :
    (∀ cycles, idsOf (runCycles (batch_fasta records batch) cycles) = records.toFinset
      ∧ DisjointFS (runCycles (batch_fasta records batch) cycles))
    ∧ (∀ (respond : String → List (StatusRecord α)) (fs : FS α) (i : Nat)
        (sid : String) (b : Batch α) (r : α),
        KeysNodup fs → findBatch (i, sid) fs = some b → sid ≠ "queued" →
        r ∈ b.ids → r ∈ errorKeysOf (respond sid) →
        (∃ q ∈ reconcileOne respond fs (i, sid),
            q.idx = i ∧ q.state = "queued" ∧ r ∈ q.ids)
        ∧ ∀ y ∈ reconcileOne respond fs (i, sid),
            y.idx = i → y.state = sid → r ∉ y.ids) := by
  constructor
  · intro cycles
    rw [idsOf_runCycles, idsOf_batch_fasta _ _ hb]
    exact ⟨rfl, disjointFS_runCycles _ _ (disjoint_batch_fasta _ _ hnd)⟩
  · intro respond fs i sid b r h1 h2 h3 h4 h5
    exact reconcileOne_moves respond fs i sid b r h1 h2 h3 h4 h5

/-- Witness for claim C1 at a concrete input: three records, batch size 2,
one reconciliation cycle. -/
theorem batch_pairs_invariant_witness :
    (List.Nodup [0, 1, 2] ∧ 0 < 2)
    ∧ idsOf (runCycles (batch_fasta [0, 1, 2] 2)
        [((fun _ => [⟨0, "ERROR", []⟩]), none, [(0, "job7")])])
      = List.toFinset [0, 1, 2] :=
  ⟨⟨by decide, by decide⟩,
    ((batch_pairs_invariant [0, 1, 2] 2 (by decide) (by decide)).1 _).1⟩

/-- Claim C9: for a submitted (non-queued) batch whose status poll
classifies no record as ERROR, reconciliation leaves every batch file pair
completely unchanged and creates no new queued pair (the rewrite step only
runs when `error_keys` is non-empty). -/
theorem reconcileOne_frame (respond : String → List (StatusRecord α))
    (fs : FS α) (key : Nat × String)
    (hq : key.2 ≠ "queued")
    (hnoerr : ∀ rec ∈ respond key.2, rec.status ≠ "ERROR") :
    reconcileOne respond fs key = fs := by
  apply reconcileOne_eq_self_of_no_errors
  unfold errorKeysOf
  have hfil : (respond key.2).filter (fun r => r.status == "ERROR") = [] :=
    List.filter_eq_nil_iff.mpr (fun a ha => by simpa using hnoerr a ha)
  rw [hfil]
  rfl

/-- Witness for claim C9 at a concrete input. -/
theorem reconcileOne_frame_witness :
    (("sub1" : String) ≠ "queued"
      ∧ ∀ rec ∈ [(⟨5, "QUEUED", []⟩ : StatusRecord Nat), ⟨6, "COMPLETED", []⟩],
          rec.status ≠ "ERROR")
    ∧ reconcileOne (fun _ => [⟨5, "QUEUED", []⟩, ⟨6, "COMPLETED", []⟩])
        [⟨0, "sub1", [5, 6]⟩] (0, "sub1") = [⟨0, "sub1", [5, 6]⟩] :=
  ⟨⟨by decide, by decide⟩,
    reconcileOne_frame _ _ _ (by decide) (by decide)⟩

/-!
## Submission driver (`api_virusseq_job`, fasta_uploader.py lines 266-370)

The driver iterates over the globbed `queued` batch files in listing
order.  For each file passing the `-n` batch-number filter it uploads the
pair and handles the response: a transport exception, a 401, a 404, a 400
"headers incorrect", a 400 "forbidden" and a 200 without submissionId are
fatal (`sys.exit`); a 200 with a submissionId renames the pair to the
submission id and continues; a 400 "invalid fields", a 500 and any other
status are logged and the driver continues with the batch left in place.
-/

/-- One invalid-field entry of `errorInfo.invalidFields`. -/
structure InvalidField where
  index : Nat
  fieldName : String
  reason : String
  value : String
  deriving DecidableEq, Repr

/-- The parsed JSON error body `{status, message, errorInfo}` of a non-200
response (lines 322-328). -/
structure ErrorBody where
  status : String
  message : String
  unknownHeaders : List String
  missingHeaders : List String
  invalidFields : List InvalidField
  deriving DecidableEq, Repr

/-- Outcome of one `requests.post` to the submission endpoint: the request
raised an exception, an HTTP 200 response (with the optional
`submissionId` of the JSON body and the printed body), or an HTTP error
response with status code, parsed JSON body and raw text. -/
inductive Response where
  | exn (msg : String)
  | http200 (submissionId : Option String) (bodyText : String)
  | httpErr (code : Nat) (body : ErrorBody) (text : String)
  deriving DecidableEq, Repr

/-- Python `str(...)` of a list of strings, as printed by the
header-error log lines. -/
def pyStrList (l : List String) : String :=
  "[" ++ String.intercalate ", " (l.map (fun s => "\x27" ++ s ++ "\x27")) ++ "]"

/-- The log line emitted for one invalid-field record (lines 350-352):
`row <index> "<fieldName>" <reason> value: <value>`. -/
def invalidFieldLine (r : InvalidField) : String :=
  "row " ++ Nat.repr r.index ++ " \"" ++ r.fieldName ++ "\" " ++ r.reason
    ++ " value: " ++ r.value

/-- The `log(status + ' (' + str(code) + ') ' + message)` line (line 326)
preceding every 400/500/other branch. -/
def statusLine (code : Nat) (body : ErrorBody) : String :=
  body.status ++ " (" ++ Nat.repr code ++ ") " ++ body.message

/-- The globbed filename of a batch pair:
`./<output_file>.<index>.<state>.fasta`. -/
def fileName (outputFile : String) (b : Batch α) : String :=
  "./" ++ outputFile ++ "." ++ Nat.repr b.idx ++ "." ++ b.state ++ ".fasta"

/-- `os.rename(filename, filename.replace('.queued.', '.<sid>.'))` at the
state-token level: a pair in state `queued` moves to state `sid` (a pair
in any other state keeps its name, as `str.replace` finds no match). -/
def renameBatch (b : Batch α) (sid : String) : Batch α :=
  if b.state = "queued" then ⟨b.idx, sid, b.ids⟩ else b

/-- Handling of one submission response (lines 290-370): the rename
target (`some sid` on a 200 carrying a submissionId), the log lines
following the "Uploading batch" line, and whether the run aborts
(`sys.exit`). -/
def submitStep (apiUrl : String) (r : Response) :
    Option String × List String × Bool :=
  match r with
  | .exn msg =>
      (none, ["API Server problem (check API URL?): " ++ msg], true)
  | .http200 (some sid) _ =>
      (some sid, ["Batch was submitted! submissionId: " ++ sid], false)
  | .http200 none bodyText =>
      (none, [bodyText, "Resolve reported error, then rerun command!"], true)
  | .httpErr code body text =>
      if code = 401 then
        (none, ["Unauthorized client error status 401 response",
                "Check to make sure your API key is current."], true)
      else if code = 404 then
        (none, ["API service endpoint not recognized. Check API URL:" ++ apiUrl],
          true)
      else if code = 400 then
        if body.status = "BAD_REQUEST" ∧ body.message = "Headers are incorrect!" then
          (none, [statusLine code body,
                  "Bad Request status 400 response.",
                  body.message,
                  "Unknown Headers: " ++ pyStrList body.unknownHeaders,
                  "Missing Headers: " ++ pyStrList body.missingHeaders,
                  "Check to make sure the .tsv file headers are current."], true)
        else if body.status = "BAD_REQUEST"
            ∧ body.message = "Found records with invalid fields" then
          (none, [statusLine code body, "Bad Request status 400 response."]
            ++ body.invalidFields.map invalidFieldLine, false)
        else if body.status = "FORBIDDEN" then
          (none, [statusLine code body, "Bad Request status 400 response.",
                  "Your account associated with the API key has not been authorized, so this service is not available to you yet."],
            true)
        else
          (none, [statusLine code body, "Bad Request status 400 response.",
                  "Error: Unable to complete batch because of status code "
                    ++ Nat.repr code ++ "\n" ++ text], false)
      else if code = 500 then
        (none, [statusLine code body, body.status, body.message]
          ++ (if body.message = "Flux#last() didn\x27t observe any onNext signal"
              then ["Does .tsv file have no data rows?"] else []), false)
      else
        (none, [statusLine code body,
                "Error: Unable to complete batch because of status code "
                  ++ Nat.repr code ++ "\n" ++ text], false)

/-- Result of the submission driver: the batch pairs after any renames (in
listing order), the indexes attempted (uploaded) in order, the log lines,
and whether the run aborted via `sys.exit`. -/
structure DriverResult (α : Type) where
  fs : FS α
  attempted : List Nat
  log : List String
  aborted : Bool
  deriving DecidableEq, Repr

/-- `api_virusseq_job` (lines 266-370): process the globbed `queued` batch
pairs in listing order; each one passing the `-n` batch-number filter is
uploaded and its response handled; a fatal response aborts the run,
leaving that pair and every later one untouched; a success renames the
pair to its submission id and the driver continues. -/
def api_virusseq_job (apiUrl outputFile : String) (respond : Nat → Response)
    (batchNumber : Option Nat) : List (Batch α) → DriverResult α
  | [] => ⟨[], [], [], false⟩
  | b :: rest =>
      if batchNumber = none ∨ batchNumber = some b.idx then
        match submitStep apiUrl (respond b.idx) with
        | (rn, lines, abort) =>
            if abort then
              ⟨b :: rest, [b.idx],
               ("Uploading batch: " ++ fileName outputFile b) :: lines, true⟩
            else
              let res := api_virusseq_job apiUrl outputFile respond batchNumber rest
              ⟨(match rn with | some sid => renameBatch b sid | none => b) :: res.fs,
               b.idx :: res.attempted,
               (("Uploading batch: " ++ fileName outputFile b) :: lines) ++ res.log,
               res.aborted⟩
      else
        let res := api_virusseq_job apiUrl outputFile respond batchNumber rest
        ⟨b :: res.fs, res.attempted, res.log, res.aborted⟩

theorem api_virusseq_job_append (apiUrl outputFile : String)
    (respond : Nat → Response) (bn : Option Nat) (l₁ l₂ : List (Batch α))
    (h : (api_virusseq_job apiUrl outputFile respond bn l₁).aborted = false) :
    api_virusseq_job apiUrl outputFile respond bn (l₁ ++ l₂)
      = ⟨(api_virusseq_job apiUrl outputFile respond bn l₁).fs
           ++ (api_virusseq_job apiUrl outputFile respond bn l₂).fs,
         (api_virusseq_job apiUrl outputFile respond bn l₁).attempted
           ++ (api_virusseq_job apiUrl outputFile respond bn l₂).attempted,
         (api_virusseq_job apiUrl outputFile respond bn l₁).log
           ++ (api_virusseq_job apiUrl outputFile respond bn l₂).log,
         (api_virusseq_job apiUrl outputFile respond bn l₂).aborted⟩ := by
  induction l₁ with
  | nil => simp [api_virusseq_job]
  | cons b rest ih =>
      rcases hstep : submitStep apiUrl (respond b.idx) with ⟨rn, lines, abort⟩
      by_cases hpass : bn = none ∨ bn = some b.idx
      · cases abort with
        | true =>
            exfalso
            rw [api_virusseq_job] at h
            rw [if_pos hpass, hstep] at h
            simp at h
        | false =>
            have hrest : (api_virusseq_job apiUrl outputFile respond bn rest).aborted
                = false := by
              rw [api_virusseq_job, if_pos hpass, hstep] at h
              simpa using h
            rw [List.cons_append, api_virusseq_job, if_pos hpass, hstep]
            rw [api_virusseq_job, if_pos hpass, hstep]
            rw [ih hrest]
            simp [List.append_assoc]
      · have hrest : (api_virusseq_job apiUrl outputFile respond bn rest).aborted
            = false := by
          rw [api_virusseq_job, if_neg hpass] at h
          simpa using h
        rw [List.cons_append, api_virusseq_job, if_neg hpass]
        rw [api_virusseq_job, if_neg hpass]
        rw [ih hrest]
        simp

/-- Claim C4: if the upload of a batch receives an HTTP 401 response, the
entire run aborts at that point: everything before it in the listing is
processed as usual, the failed pair keeps its files (no rename, it stays
exactly as listed), and no queued batch after it is ever attempted. -/
theorem driver_aborts_on_401 (apiUrl outputFile : String)
    (respond : Nat → Response) (bn : Option Nat) (l₁ l₂ : List (Batch α))
    (b : Batch α) (body : ErrorBody) (text : String)
    (hresp : respond b.idx = Response.httpErr 401 body text)
    (hpass : bn = none ∨ bn = some b.idx)
    (hnoabort : (api_virusseq_job apiUrl outputFile respond bn l₁).aborted = false) :
    (api_virusseq_job apiUrl outputFile respond bn (l₁ ++ b :: l₂)).attempted
      = (api_virusseq_job apiUrl outputFile respond bn l₁).attempted ++ [b.idx]
    ∧ (api_virusseq_job apiUrl outputFile respond bn (l₁ ++ b :: l₂)).fs
      = (api_virusseq_job apiUrl outputFile respond bn l₁).fs ++ b :: l₂
    ∧ (api_virusseq_job apiUrl outputFile respond bn (l₁ ++ b :: l₂)).aborted
      = true := by
  have hstep : submitStep apiUrl (respond b.idx)
      = (none, ["Unauthorized client error status 401 response",
                "Check to make sure your API key is current."], true) := by
    rw [hresp]; rfl
  have hcons : api_virusseq_job apiUrl outputFile respond bn (b :: l₂)
      = ⟨b :: l₂, [b.idx],
         ("Uploading batch: " ++ fileName outputFile b)
           :: ["Unauthorized client error status 401 response",
               "Check to make sure your API key is current."], true⟩ := by
    rw [api_virusseq_job, if_pos hpass, hstep]
    rfl
  rw [api_virusseq_job_append _ _ _ _ _ _ hnoabort, hcons]
  exact ⟨rfl, rfl, rfl⟩

/-- Witness for claim C4 at a concrete input: the first listed batch gets
the 401; the batch behind it is never attempted. -/
theorem driver_aborts_on_401_witness :
    ((fun _ : Nat => Response.httpErr 401 ⟨"", "", [], [], []⟩ "") 0
        = Response.httpErr 401 ⟨"", "", [], [], []⟩ ""
      ∧ ((none : Option Nat) = none ∨ (none : Option Nat) = some 0)
      ∧ (api_virusseq_job "u" "o"
          (fun _ : Nat => Response.httpErr 401 ⟨"", "", [], [], []⟩ "")
          none ([] : FS Nat)).aborted = false)
    ∧ ((api_virusseq_job "u" "o"
          (fun _ : Nat => Response.httpErr 401 ⟨"", "", [], [], []⟩ "")
          none (([] : FS Nat) ++ ⟨0, "queued", [1]⟩ :: [⟨1, "queued", [2]⟩])).attempted
        = (api_virusseq_job "u" "o"
            (fun _ : Nat => Response.httpErr 401 ⟨"", "", [], [], []⟩ "")
            none ([] : FS Nat)).attempted ++ [0]
      ∧ (api_virusseq_job "u" "o"
          (fun _ : Nat => Response.httpErr 401 ⟨"", "", [], [], []⟩ "")
          none (([] : FS Nat) ++ ⟨0, "queued", [1]⟩ :: [⟨1, "queued", [2]⟩])).fs
        = (api_virusseq_job "u" "o"
            (fun _ : Nat => Response.httpErr 401 ⟨"", "", [], [], []⟩ "")
            none ([] : FS Nat)).fs ++ ⟨0, "queued", [1]⟩ :: [⟨1, "queued", [2]⟩]
      ∧ (api_virusseq_job "u" "o"
          (fun _ : Nat => Response.httpErr 401 ⟨"", "", [], [], []⟩ "")
          none (([] : FS Nat) ++ ⟨0, "queued", [1]⟩ :: [⟨1, "queued", [2]⟩])).aborted
        = true) :=
  ⟨⟨rfl, Or.inl rfl, rfl⟩,
    driver_aborts_on_401 "u" "o"
      (fun _ : Nat => Response.httpErr 401 ⟨"", "", [], [], []⟩ "") none
      [] [⟨1, "queued", [2]⟩] ⟨0, "queued", [1]⟩ ⟨"", "", [], [], []⟩ ""
      rfl (Or.inl rfl) rfl⟩

/-- Claim C5: a 400 response with status BAD_REQUEST and message "Found
records with invalid fields" leaves the batch pair in `queued` state (no
rename), logs one line per entry of `errorInfo.invalidFields` carrying its
index, fieldName, reason and value, and the driver continues with the
next queued batch instead of aborting. -/
theorem driver_invalid_fields_recoverable (apiUrl outputFile : String)
    (respond : Nat → Response) (bn : Option Nat) (b : Batch α)
    (rest : List (Batch α)) (body : ErrorBody) (text : String)
    (hresp : respond b.idx = Response.httpErr 400 body text)
    (hstatus : body.status = "BAD_REQUEST")
    (hmsg : body.message = "Found records with invalid fields")
    (hpass : bn = none ∨ bn = some b.idx) :
    (api_virusseq_job apiUrl outputFile respond bn (b :: rest)).fs
      = b :: (api_virusseq_job apiUrl outputFile respond bn rest).fs
    ∧ (api_virusseq_job apiUrl outputFile respond bn (b :: rest)).attempted
      = b.idx :: (api_virusseq_job apiUrl outputFile respond bn rest).attempted
    ∧ (api_virusseq_job apiUrl outputFile respond bn (b :: rest)).aborted
      = (api_virusseq_job apiUrl outputFile respond bn rest).aborted
    ∧ ∃ pre post, (api_virusseq_job apiUrl outputFile respond bn (b :: rest)).log
        = pre ++ body.invalidFields.map invalidFieldLine ++ post := by
  have hne : ¬(body.status = "BAD_REQUEST" ∧ body.message = "Headers are incorrect!") := by
    rintro ⟨h1, h2⟩
    rw [hmsg] at h2
    exact absurd h2 (by decide)
  have hstep : submitStep apiUrl (respond b.idx)
      = (none, [statusLine 400 body, "Bad Request status 400 response."]
          ++ body.invalidFields.map invalidFieldLine, false) := by
    rw [hresp]
    simp only [submitStep]
    rw [if_neg (by decide), if_neg (by decide), if_pos True.intro, if_neg hne,
      if_pos ⟨hstatus, hmsg⟩]
  have hcons : api_virusseq_job apiUrl outputFile respond bn (b :: rest)
      = ⟨b :: (api_virusseq_job apiUrl outputFile respond bn rest).fs,
         b.idx :: (api_virusseq_job apiUrl outputFile respond bn rest).attempted,
         (("Uploading batch: " ++ fileName outputFile b)
           :: ([statusLine 400 body, "Bad Request status 400 response."]
             ++ body.invalidFields.map invalidFieldLine))
           ++ (api_virusseq_job apiUrl outputFile respond bn rest).log,
         (api_virusseq_job apiUrl outputFile respond bn rest).aborted⟩ := by
    rw [api_virusseq_job, if_pos hpass, hstep]
    rfl
  rw [hcons]
  refine ⟨rfl, rfl, rfl,
    ["Uploading batch: " ++ fileName outputFile b, statusLine 400 body,
      "Bad Request status 400 response."],
    (api_virusseq_job apiUrl outputFile respond bn rest).log, ?_⟩
  simp [List.append_assoc]

/-- The concrete invalid-fields error body used by the claim C5 witness. -/
def bodyInv : ErrorBody :=
  ⟨"BAD_REQUEST", "Found records with invalid fields", [], [],
    [⟨1, "f", "NOT_ALLOWED_TO_BE_EMPTY", "v"⟩]⟩

/-- The concrete responder used by the claim C5 witness. -/
def resp400inv : Nat → Response := fun _ => Response.httpErr 400 bodyInv "t"

/-- Witness for claim C5 at a concrete input. -/
theorem driver_invalid_fields_recoverable_witness :
    (resp400inv 0 = Response.httpErr 400 bodyInv "t"
      ∧ bodyInv.status = "BAD_REQUEST"
      ∧ bodyInv.message = "Found records with invalid fields"
      ∧ ((none : Option Nat) = none ∨ (none : Option Nat) = some 0))
    ∧ (api_virusseq_job "u" "o" resp400inv none
        [(⟨0, "queued", [1]⟩ : Batch Nat)]).fs = [⟨0, "queued", [1]⟩]
    ∧ ∃ pre post, (api_virusseq_job "u" "o" resp400inv none
        [(⟨0, "queued", [1]⟩ : Batch Nat)]).log
      = pre ++ bodyInv.invalidFields.map invalidFieldLine ++ post := by
  refine ⟨⟨rfl, rfl, rfl, Or.inl rfl⟩, ?_, ?_⟩
  · have h := driver_invalid_fields_recoverable "u" "o" resp400inv none
      (⟨0, "queued", [1]⟩ : Batch Nat) [] bodyInv "t" rfl rfl rfl (Or.inl rfl)
    rw [h.1]
    rfl
  · have h := driver_invalid_fields_recoverable "u" "o" resp400inv none
      (⟨0, "queued", [1]⟩ : Batch Nat) [] bodyInv "t" rfl rfl rfl (Or.inl rfl)
    exact h.2.2.2

/-- Claim C6: for a queued batch that receives HTTP 200: if the body
carries a submissionId, both files of the pair are renamed by replacing
the `queued` state token with that submission id and the driver continues;
if the 200 body carries no submissionId, the whole run aborts immediately
with no rename. -/
theorem driver_http200_rename_or_abort (apiUrl outputFile : String)
    (respond : Nat → Response) (bn : Option Nat) (b : Batch α)
    (rest : List (Batch α)) (sid bodyText : String)
    (hq : b.state = "queued")
    (hpass : bn = none ∨ bn = some b.idx) :
    ((respond b.idx = Response.http200 (some sid) bodyText) →
      (api_virusseq_job apiUrl outputFile respond bn (b :: rest)).fs
        = ⟨b.idx, sid, b.ids⟩
            :: (api_virusseq_job apiUrl outputFile respond bn rest).fs
      ∧ (api_virusseq_job apiUrl outputFile respond bn (b :: rest)).attempted
        = b.idx :: (api_virusseq_job apiUrl outputFile respond bn rest).attempted
      ∧ (api_virusseq_job apiUrl outputFile respond bn (b :: rest)).aborted
        = (api_virusseq_job apiUrl outputFile respond bn rest).aborted)
    ∧ ((respond b.idx = Response.http200 none bodyText) →
      (api_virusseq_job apiUrl outputFile respond bn (b :: rest)).fs = b :: rest
      ∧ (api_virusseq_job apiUrl outputFile respond bn (b :: rest)).attempted
        = [b.idx]
      ∧ (api_virusseq_job apiUrl outputFile respond bn (b :: rest)).aborted
        = true) := by
  constructor
  · intro hresp
    have hstep : submitStep apiUrl (respond b.idx)
        = (some sid, ["Batch was submitted! submissionId: " ++ sid], false) := by
      rw [hresp]
      rfl
    have hcons : api_virusseq_job apiUrl outputFile respond bn (b :: rest)
        = ⟨renameBatch b sid
             :: (api_virusseq_job apiUrl outputFile respond bn rest).fs,
           b.idx :: (api_virusseq_job apiUrl outputFile respond bn rest).attempted,
           (("Uploading batch: " ++ fileName outputFile b)
             :: ["Batch was submitted! submissionId: " ++ sid])
             ++ (api_virusseq_job apiUrl outputFile respond bn rest).log,
           (api_virusseq_job apiUrl outputFile respond bn rest).aborted⟩ := by
      rw [api_virusseq_job, if_pos hpass, hstep]
      rfl
    rw [hcons]
    refine ⟨?_, rfl, rfl⟩
    show renameBatch b sid :: _ = _
    rw [renameBatch, if_pos hq]
  · intro hresp
    have hstep : submitStep apiUrl (respond b.idx)
        = (none, [bodyText, "Resolve reported error, then rerun command!"], true) := by
      rw [hresp]
      rfl
    rw [api_virusseq_job, if_pos hpass, hstep]
    exact ⟨rfl, rfl, rfl⟩

/-- Witness for claim C6 at a concrete input: a 200 response carrying
submissionId JOB1 renames the queued pair of index 0 to state JOB1. -/
theorem driver_http200_rename_or_abort_witness :
    ((⟨0, "queued", [1]⟩ : Batch Nat).state = "queued"
      ∧ ((none : Option Nat) = none ∨ (none : Option Nat) = some 0))
    ∧ (api_virusseq_job "u" "o" (fun _ : Nat => Response.http200 (some "JOB1") "")
        none [(⟨0, "queued", [1]⟩ : Batch Nat)]).fs = [⟨0, "JOB1", [1]⟩] :=
  ⟨⟨rfl, Or.inl rfl⟩, by
    have h := (driver_http200_rename_or_abort "u" "o"
      (fun _ : Nat => Response.http200 (some "JOB1") "") none
      (⟨0, "queued", [1]⟩ : Batch Nat) [] "JOB1" "" rfl (Or.inl rfl)).1 rfl
    rw [h.1]
    rfl⟩

/-- Claim C7 counterexample: the submission driver iterates the glob
listing in the order it is given (`glob.glob` returns arbitrary order and
`api_batch_job` does not sort it, line 241); with the listing containing
batch 1 before batch 0 the driver attempts batch 1 first, so it does not
visit batches in ascending index order. -/
theorem driver_order_counterexample :
    (api_virusseq_job "u" "o"
        (fun _ : Nat => Response.httpErr 500 ⟨"E", "m", [], [], []⟩ "t")
        none [(⟨1, "queued", []⟩ : Batch Nat), ⟨0, "queued", []⟩]).attempted
      = [1, 0]
    ∧ ¬ List.Sorted (· ≤ ·)
        (api_virusseq_job "u" "o"
          (fun _ : Nat => Response.httpErr 500 ⟨"E", "m", [], [], []⟩ "t")
          none [(⟨1, "queued", []⟩ : Batch Nat), ⟨0, "queued", []⟩]).attempted := by
  constructor
  · rfl
  · intro hsorted
    have h : (1 : Nat) ≤ 0 := List.rel_of_sorted_cons hsorted 0 (by
      show (0 : Nat) ∈ [0]
      exact List.mem_singleton.mpr rfl)
    omega

/-- Claim C7 amended: the status reconciler sorts the globbed listing and
visits batches in ascending batch-index order (line 377); the submission
driver attempts batches in the order of the directory listing (its
attempted indexes form a sublist of the listing's index sequence), which
`glob.glob` does not guarantee to be ascending. -/
theorem visit_order (listing : List (Nat × String)) (apiUrl outputFile : String)
    (respond : Nat → Response) (bn : Option Nat) (batches : List (Batch α)) :
    List.Sorted (· ≤ ·) ((sortBatchKeys listing).map Prod.fst)
    ∧ (api_virusseq_job apiUrl outputFile respond bn batches).attempted.Sublist
        (batches.map (fun b => b.idx)) := by
  constructor
  · haveI : IsTotal (Nat × String) (fun a b => a.1 ≤ b.1) :=
      ⟨fun a b => Nat.le_total a.1 b.1⟩
    haveI : IsTrans (Nat × String) (fun a b => a.1 ≤ b.1) :=
      ⟨fun _ _ _ h1 h2 => Nat.le_trans h1 h2⟩
    have h := List.sorted_insertionSort (fun a b : Nat × String => a.1 ≤ b.1) listing
    unfold List.Sorted at h ⊢
    rw [List.pairwise_map]
    exact h
  · induction batches with
    | nil => simp [api_virusseq_job]
    | cons b rest ih =>
        rcases hstep : submitStep apiUrl (respond b.idx) with ⟨rn, lines, abort⟩
        by_cases hpass : bn = none ∨ bn = some b.idx
        · rw [api_virusseq_job, if_pos hpass, hstep]
          cases abort with
          | true => exact (List.nil_sublist _).cons₂ _
          | false => exact ih.cons₂ _
        · rw [api_virusseq_job, if_neg hpass]
          exact ih.cons _

/-!
## Metadata loading (`get_metadata`, fasta_uploader.py lines 104-135)

A metadata table is a list of rows, each row a list of (column, value)
pairs.  `get_metadata` checks that the key column is among the table's
columns (otherwise `sys.exit(1)`, modelled by `none`), evaluates
`metadata.sort_values(by=options.key_field)` -- whose result pandas
returns as a new table and the code neither assigns back nor requests
`inplace` -- and returns `metadata`.
-/

/-- A metadata row: column name to value. -/
abbrev Row := List (String × String)

/-- The value a row carries in the key column (the pandas sort key). -/
def rowKey (keyField : String) (r : Row) : String :=
  (r.lookup keyField).getD ""

/-- `metadata.sort_values(by=options.key_field)`: the stably sorted copy
of the table that pandas returns. -/
def sort_values (keyField : String) (metadata : List Row) : List Row :=
  List.insertionSort (fun a b => rowKey keyField a ≤ rowKey keyField b) metadata

/-- `get_metadata` (lines 111-135): `none` models `sys.exit(1)` when the
key column is missing; otherwise the sorted copy of line 133 is computed
and discarded, and the table is returned in its original order. -/
def get_metadata (keyField : String) (columns : List String)
    (metadata : List Row) : Option (List Row) :=
  if keyField ∈ columns then
    let _sorted := sort_values keyField metadata
    some metadata
  else none

/-- Claim C8, settled against the code at a failing input: `get_metadata`
returns the metadata rows in their original file order, because the
`metadata.sort_values(by=options.key_field)` call on line 133 is neither
assigned back nor `inplace`, so its sorted result is discarded.  This
contradicts the claim and the function docstring (lines 104-109: "sorts
it", "@return list sorted by options.key_field").  On a table whose key
column holds ["B", "A"], the returned table differs from the sorted
one. -/
theorem get_metadata_unsorted :
    get_metadata "k" ["k"] [[("k", "B")], [("k", "A")]]
        = some [[("k", "B")], [("k", "A")]]
    ∧ sort_values "k" [[("k", "B")], [("k", "A")]]
        = [[("k", "A")], [("k", "B")]]
    ∧ ([[("k", "B")], [("k", "A")]] : List Row) ≠ [[("k", "A")], [("k", "B")]] := by
  refine ⟨by decide, ?_, by decide⟩
  simp [sort_values, List.insertionSort, List.orderedInsert, rowKey, List.lookup]
  decide

/-!
## Error-trail parsing (`api_virusseq_status`, fasta_uploader.py lines 463-472)

For each record reported in state ERROR, the code iterates over
`submission['error'].split('#')[1:]` and, per segment `item`, computes
`binding = item.split(':', 1)`, `item_label = binding[0].split('/')[-1]`
and `item_error = binding[1]`.  Python strings are modelled as `List
Char`; `split` on a one-character separator keeps empty pieces; the
`binding[1]` access raises IndexError when the segment has no colon,
modelled by `none`.
-/

/-- Split at the first occurrence of `sep`: `some (before, after)` when
`sep` occurs, `none` otherwise (`[before, after]` is Python
`split(sep, 1)` when the separator occurs; otherwise the split is the
one-element list and index 1 is out of range). -/
def pyBreak (sep : Char) : List Char → Option (List Char × List Char)
  | [] => none
  | c :: rest =>
      if c = sep then some ([], rest)
      else (pyBreak sep rest).map (fun p => (c :: p.1, p.2))

/-- Worker for `pySplit`, accumulating the current piece reversed. -/
def pySplitAux (sep : Char) : List Char → List Char → List (List Char)
  | [], acc => [acc.reverse]
  | c :: rest, acc =>
      if c = sep then acc.reverse :: pySplitAux sep rest []
      else pySplitAux sep rest (c :: acc)

/-- Python `s.split(sep)` for a one-character separator: every occurrence
splits, empty pieces are kept. -/
def pySplit (sep : Char) (s : List Char) : List (List Char) :=
  pySplitAux sep s []

/-- `binding = item.split(':', 1)`, then
`(binding[0].split('/')[-1], binding[1])`: `none` models the IndexError
on `binding[1]` when the segment carries no colon. -/
def parseSegment (seg : List Char) : Option (List Char × List Char) :=
  (pyBreak ':' seg).map (fun p => ((pySplit '/' p.1).getLastD [], p.2))

/-- The loop body over all segments: one (label, message) entry per
segment; the whole run dies at the first segment without a colon. -/
def parseSegments : List (List Char) → Option (List (List Char × List Char))
  | [] => some []
  | seg :: rest =>
      match parseSegment seg, parseSegments rest with
      | some e, some es => some (e :: es)
      | _, _ => none

/-- The full per-record error parse: segments are
`error.split('#')[1:]` (the text before the first '#' is dropped). -/
def parseErrorTrail (s : List Char) : Option (List (List Char × List Char)) :=
  parseSegments ((pySplit '#' s).tail)

/-- The part of a segment before its first colon (total description). -/
def colonLeft (seg : List Char) : List Char :=
  ((pyBreak ':' seg).map Prod.fst).getD seg

/-- The part of a segment after its first colon (total description). -/
def colonRight (seg : List Char) : List Char :=
  ((pyBreak ':' seg).map Prod.snd).getD []

theorem pyBreak_eq_none_iff (sep : Char) (l : List Char) :
    pyBreak sep l = none ↔ sep ∉ l := by
  induction l with
  | nil => simp [pyBreak]
  | cons c rest ih =>
      by_cases hc : c = sep
      · subst hc
        simp [pyBreak]
      · rw [pyBreak, if_neg hc]
        simp [ih, Ne.symm hc]

theorem parseSegment_of_colon (seg : List Char) (h : ':' ∈ seg) :
    parseSegment seg
      = some ((pySplit '/' (colonLeft seg)).getLastD [], colonRight seg) := by
  have hne : pyBreak ':' seg ≠ none := by
    rw [Ne, pyBreak_eq_none_iff]
    simpa using h
  rcases Option.ne_none_iff_exists.mp hne with ⟨p, hp⟩
  rw [parseSegment, ← hp, Option.map_some', colonLeft, colonRight, ← hp]
  rfl

theorem parseSegments_of_colon (L : List (List Char))
    (h : ∀ seg ∈ L, ':' ∈ seg) :
    parseSegments L
      = some (L.map (fun seg =>
          ((pySplit '/' (colonLeft seg)).getLastD [], colonRight seg))) := by
  induction L with
  | nil => rfl
  | cons seg rest ih =>
      rw [parseSegments, parseSegment_of_colon seg (h seg (List.mem_cons_self _ _)),
        ih (fun s hs => h s (List.mem_cons_of_mem _ hs))]
      rfl

theorem pySplitAux_append (sep : Char) (pre rest : List Char) :
    ∀ acc, sep ∉ pre →
      pySplitAux sep (pre ++ sep :: rest) acc
        = (acc.reverse ++ pre) :: pySplitAux sep rest [] := by
  induction pre with
  | nil =>
      intro acc _
      simp [pySplitAux]
  | cons c pre2 ih =>
      intro acc h
      have hc : ¬c = sep := fun hcc => h (by rw [hcc]; exact List.mem_cons_self _ _)
      rw [List.cons_append, pySplitAux, if_neg hc,
        ih (c :: acc) (fun hmem => h (List.mem_cons_of_mem _ hmem))]
      simp

/-- Claim C10: the per-record error-trail parse is well-defined exactly
under the precondition that every '#'-delimited segment after the first
contains a colon: under it the parse yields exactly one (label, message)
entry per such segment, the label being the last '/'-separated component
of the part before the first colon; the text before the first '#' is
discarded; and a segment lacking a colon makes the `binding[1]` access
fall outside the split result (the IndexError branch, modelled by `none`,
is reachable). -/
theorem parse_error_trail_spec :
    (∀ s : List Char, (∀ seg ∈ (pySplit '#' s).tail, ':' ∈ seg) →
      parseErrorTrail s
        = some (((pySplit '#' s).tail).map (fun seg =>
            ((pySplit '/' (colonLeft seg)).getLastD [], colonRight seg))))
    ∧ (∀ pre rest : List Char, '#' ∉ pre →
        parseErrorTrail (pre ++ '#' :: rest) = parseErrorTrail ('#' :: rest))
    ∧ ¬ (∀ seg ∈ (pySplit '#' ("x#nocolon".data)).tail, ':' ∈ seg)
    ∧ parseErrorTrail ("x#nocolon".data) = none := by
  refine ⟨?_, ?_, ?_, ?_⟩
  · intro s h
    exact parseSegments_of_colon _ h
  · intro pre rest h
    unfold parseErrorTrail pySplit
    rw [pySplitAux_append _ _ _ _ h,
      show ('#' :: rest : List Char) = [] ++ '#' :: rest from rfl,
      pySplitAux_append _ _ _ _ (List.not_mem_nil _)]
    rfl
  · decide
  · decide
